import Mathlib

/-!
Verification of the kanban-board application (`src/App.jsx`).

The board state model and its mutation operations are shallowly embedded:
JS objects keyed by the three fixed column names become a structure with
three ticket lists, JS property access `columns[status]` becomes `getCol`
(returning `none` for the `undefined` of an unknown key), fallible code
returns `Except`, and timestamps are opaque strings supplied by callers
(the code reads them from `Date`).  Functions keep the source's names.
-/

namespace Kanban

/-- A ticket, mirroring the object literals built in `handleSaveTicket`
(`src/App.jsx` lines 620-643).  `tentativeTime` is an `Int` because the
form stores whatever `parseInt` produced, which can be negative. -/
structure Ticket where
  id : String
  title : String
  description : String
  assignedTo : String
  tentativeTime : Int
  priority : String
  status : String
  createdAt : String
  updatedAt : String
deriving DecidableEq, Repr

/-- The form data handed to `handleSaveTicket` by `TicketModal`
(`src/App.jsx` lines 326-333): all ticket fields except identity and
timestamps. -/
structure TicketFields where
  title : String
  description : String
  assignedTo : String
  tentativeTime : Int
  priority : String
  status : String
deriving DecidableEq, Repr

/-- The board: the `columns` object of `src/App.jsx`, whose keys are fixed
at `"To Do"`, `"In Progress"`, `"Done"` (in that insertion order). -/
structure Board where
  todo : List Ticket
  inProgress : List Ticket
  done : List Ticket
deriving DecidableEq, Repr

/-- Embeds `Object.keys(columns)` in key-insertion order (`src/App.jsx` lines 79-83). -/
def colKeys : List String := ["To Do", "In Progress", "Done"]

/-- JS property read `columns[status]`: `none` models `undefined` for a key
that is not one of the three fixed columns. -/
def getCol (b : Board) (s : String) : Option (List Ticket) :=
  if s = "To Do" then some b.todo
  else if s = "In Progress" then some b.inProgress
  else if s = "Done" then some b.done
  else none

/-- JS property write `{ ...columns, [status]: l }` for the three fixed
keys.  (For an unknown key the JS spread would add a fresh key; the UI only
ever supplies the three fixed names, so the embedding keeps the key set
fixed and leaves the board unchanged there.) -/
def setCol (b : Board) (s : String) (l : List Ticket) : Board :=
  if s = "To Do" then { b with todo := l }
  else if s = "In Progress" then { b with inProgress := l }
  else if s = "Done" then { b with done := l }
  else b

/-- Embeds `initialColumns` (`src/App.jsx` lines 79-83): the empty default board. -/
def initialColumns : Board := ⟨[], [], []⟩

/-- Embeds `Object.values(columns).flat()` (`src/App.jsx` line 584): all tickets
in column-then-insertion order. -/
def allTickets (b : Board) : List Ticket := b.todo ++ b.inProgress ++ b.done

/-- The ids of all tickets on the board, in board order. -/
def TicketIds (b : Board) : List String := (allTickets b).map Ticket.id

/-- Embeds `Object.keys(columns).find(status => columns[status].some(t => t.id === tid))`:
the column currently holding the ticket with the given id.  This is also
what dnd-kit reports as a sortable item's `containerId`, since each column
renders one `SortableContext` whose id is the column name
(`src/App.jsx` lines 285-288). -/
def containerOf (b : Board) (tid : String) : Option String :=
  colKeys.find? (fun s => ((getCol b s).getD []).any (fun t => t.id == tid))

/-- JS truthiness test of `handleSaveTicket`'s guard (`src/App.jsx` line 617):
`!ticketData.title || !ticketData.assignedTo || !ticketData.tentativeTime`.
Empty strings and the number `0` are the falsy values these fields can take. -/
def fieldsInvalid (f : TicketFields) : Bool :=
  f.title == "" || f.assignedTo == "" || f.tentativeTime == 0

/-- The create branch of `handleSaveTicket` (`src/App.jsx` lines 616-645):
guard on truthiness, then build a ticket with `status: createStatus ||
ticketData.status || "To Do"`, stamp `createdAt = updatedAt = now`, and
append it to that column.  `newId` is the `Date.now().toString()` value and
`now` the `new Date().toISOString()` value, both supplied by the caller's
environment. -/
def createTicket (b : Board) (f : TicketFields) (createStatus : String)
    (newId : String) (now : String) : Board :=
  if fieldsInvalid f then b
  else
    let st := if createStatus = "" then (if f.status = "" then "To Do" else f.status)
              else createStatus
    let t : Ticket :=
      { id := newId, title := f.title, description := f.description,
        assignedTo := f.assignedTo, tentativeTime := f.tentativeTime,
        priority := f.priority, status := st, createdAt := now, updatedAt := now }
    setCol b st (((getCol b st).getD []) ++ [t])

/-- The edit branch of `handleSaveTicket` (`src/App.jsx` lines 620-630):
remove the edited ticket from its recorded column, merge the form data over
it (`{ ...editingTicket, ...ticketData, updatedAt: now }` keeps `id` and
`createdAt`), and append the merged ticket to the column named by the
form's status.  If the recorded status is not a column key the JS
`undefined.filter` throws and the state update is discarded, leaving the
board unchanged. -/
def updateTicket (b : Board) (editing : Ticket) (f : TicketFields) (now : String) : Board :=
  if fieldsInvalid f then b
  else
    match getCol b editing.status with
    | none => b
    | some srcList =>
      let b1 := setCol b editing.status (srcList.filter (fun t => t.id != editing.id))
      let merged : Ticket :=
        { id := editing.id, title := f.title, description := f.description,
          assignedTo := f.assignedTo, tentativeTime := f.tentativeTime,
          priority := f.priority, status := f.status,
          createdAt := editing.createdAt, updatedAt := now }
      setCol b1 f.status (((getCol b1 f.status).getD []) ++ [merged])

/-- Errors a mutation can raise synchronously (a thrown error discards the
React state update, so the board value is unchanged whenever one occurs). -/
inductive JsError where
  | typeError
  | syntaxError
deriving DecidableEq, Repr

/-- Embeds `handleDeleteTicket` (`src/App.jsx` lines 648-654): guard on falsy `id`
or `status`, then `prev[status].filter(t => t.id !== id)`.  When `status`
is not a column key, `prev[status]` is `undefined` and `.filter` throws a
`TypeError`. -/
def handleDeleteTicket (b : Board) (id status : String) : Except JsError Board :=
  if id == "" || status == "" then .ok b
  else
    match getCol b status with
    | none => .error .typeError
    | some col => .ok (setCol b status (col.filter (fun t => t.id != id)))

/-- The board after `handleDeleteTicket`: on a throw the state update never
commits, so the board is unchanged. -/
def deleteB (b : Board) (id status : String) : Board :=
  match handleDeleteTicket b id status with
  | .ok b' => b'
  | .error _ => b

/-- dnd-kit's `arrayMove` as used on a valid `from` index
(`src/App.jsx` line 733): remove the element at `from`, then splice it back
in at `to` (clamped to the shortened list's length, as JS `splice` clamps). -/
def arrayMove (l : List Ticket) (i j : Nat) : List Ticket :=
  match l[i]? with
  | none => l
  | some a => (l.eraseIdx i).insertIdx (min j (l.eraseIdx i).length) a

/-- Destination-column resolution of `handleDragEnd` (`src/App.jsx` line 723):
`over.data?.current?.sortable?.containerId || (Object.keys(columns).includes(overId) ? overId : null)`.
A sortable hover target's `containerId` is the column holding that ticket;
otherwise the hover id itself must be a column key. -/
def resolveDestination (b : Board) (overId : String) : Option String :=
  match containerOf b overId with
  | some s => some s
  | none => if overId ∈ colKeys then some overId else none

/-- The drag-end event as `handleDragEnd` consumes it: the dragged ticket's
id (`active.id`), the hover target's id if any (`over?.id`), and the source
container recorded by the sortable bookkeeping
(`active.data?.current?.sortable?.containerId`), which may be absent or
stale if the ticket vanished mid-drag. -/
structure DragEndEvent where
  activeId : String
  overId : Option String
  sourceStatus : Option String
deriving DecidableEq, Repr

/-- The board mutation of `handleDragEnd` (`src/App.jsx` lines 691-755).
`findIdx?` models JS `findIndex` (`none` for `-1`).  Same column: move the
dragged ticket to the hover ticket's index via `arrayMove`, or to the end
when the hover target is not a ticket of the column.  Different columns:
splice the ticket out of the source, rewrite its `status` to the
destination name, and push it onto the destination's tail. -/
def handleDragEnd (b : Board) (e : DragEndEvent) : Board :=
  match e.overId with
  | none => b
  | some overId =>
    match e.sourceStatus with
    | none => b
    | some sourceStatus =>
      match resolveDestination b overId with
      | none => b
      | some destinationStatus =>
        if sourceStatus = destinationStatus then
          let sourceItems := (getCol b sourceStatus).getD []
          let newIndex :=
            match sourceItems.findIdx? (fun t => t.id == overId) with
            | some k => k
            | none => sourceItems.length - 1
          match sourceItems.findIdx? (fun t => t.id == e.activeId) with
          | none => b
          | some oldIndex => setCol b sourceStatus (arrayMove sourceItems oldIndex newIndex)
        else
          let sourceItems := (getCol b sourceStatus).getD []
          let destItems := (getCol b destinationStatus).getD []
          match sourceItems.findIdx? (fun t => t.id == e.activeId) with
          | none => b
          | some movingIndex =>
            match sourceItems[movingIndex]? with
            | none => b
            | some moving =>
              setCol (setCol b sourceStatus (sourceItems.eraseIdx movingIndex))
                destinationStatus (destItems ++ [{ moving with status := destinationStatus }])

/-- The drag-session state around the board: `draggedTicket` and
`dragEnabledId` of `src/App.jsx` lines 542-543. -/
structure AppState where
  board : Board
  draggedTicket : Option Ticket
  dragEnabledId : Option String
deriving DecidableEq, Repr

/-- Embeds `handleDragStart` (`src/App.jsx` lines 656-672): record the dragged
ticket looked up in the flattened board; the board itself is untouched. -/
def handleDragStart (st : AppState) (activeId : String) : AppState :=
  { st with draggedTicket := (allTickets st.board).find? (fun t => t.id == activeId) }

/-- Embeds `handleDragOver` (`src/App.jsx` lines 674-689): purely visual, no state
of the model changes. -/
def handleDragOver (st : AppState) (_overId : Option String) : AppState := st

/-- Embeds `handleDragEnd` at the session level: `setDraggedTicket(null)` and
`setDragEnabledId(null)` run unconditionally before any early return
(`src/App.jsx` lines 714-715), then the board mutation. -/
def handleDragEndApp (st : AppState) (e : DragEndEvent) : AppState :=
  { board := handleDragEnd st.board e, draggedTicket := none, dragEnabledId := none }

/-- Embeds `handleClearBoard` (`src/App.jsx` lines 757-760). -/
def handleClearBoard (_b : Board) : Board := initialColumns

/-- Embeds `loadFromLocalStorage` (`src/App.jsx` lines 85-88):
`saved ? JSON.parse(saved) : initialColumns`.  The stored blob is
abstracted by its parse outcome: `none` for an absent (or empty, hence
falsy) entry, `some none` for a present string `JSON.parse` rejects (the
call throws a `SyntaxError`), `some (some b)` for a string parsing to the
board `b`. -/
def loadFromLocalStorage (saved : Option (Option Board)) : Except JsError Board :=
  match saved with
  | none => .ok initialColumns
  | some none => .error .syntaxError
  | some (some b) => .ok b

/-- JS `String.prototype.includes`: substring containment on the
character lists. -/
def listIncludes (q : List Char) : List Char → Bool
  | [] => q.isPrefixOf []
  | c :: rest => q.isPrefixOf (c :: rest) || listIncludes q rest

/-- Embeds `s.includes(q)` for strings. -/
def strIncludes (s q : String) : Bool := listIncludes q.toList s.toList

/-- JS `String.prototype.toLowerCase` (character-wise, as the app only
meets ASCII data). -/
def jsToLower (s : String) : String := ⟨s.toList.map Char.toLower⟩

/-- Whitespace as stripped by JS `String.prototype.trim`. -/
def jsWhitespace (c : Char) : Bool :=
  c == ' ' || c == '\t' || c == '\n' || c == '\r'

/-- JS `String.prototype.trim`: strip whitespace from both ends. -/
def jsTrim (s : String) : String :=
  ⟨(((s.toList.dropWhile jsWhitespace).reverse.dropWhile jsWhitespace).reverse)⟩

/-- The `filteredTickets` memo (`src/App.jsx` lines 585-594): trim and
lowercase the query; an empty result rejects everything; otherwise filter
the flattened tickets — title, description and assignee are lowercased
before matching, the id is matched verbatim — and cap at 10. -/
def filteredTickets (b : Board) (query : String) : List Ticket :=
  let q := jsToLower (jsTrim query)
  if q = "" then []
  else
    ((allTickets b).filter (fun t =>
      strIncludes (jsToLower t.title) q ||
      strIncludes (jsToLower t.description) q ||
      strIncludes (jsToLower t.assignedTo) q ||
      strIncludes t.id q)).take 10

/-- Spec-side search predicate, written from the amended wording of the
search claim: the processed query must occur case-insensitively in the
title, the description or the assignee, or verbatim (case-sensitively) in
the id.  Compared against `filteredTickets` in the search theorem. -/
def specMatches (t : Ticket) (q : String) : Bool :=
  strIncludes (jsToLower t.title) q ||
  strIncludes (jsToLower t.description) q ||
  strIncludes (jsToLower t.assignedTo) q ||
  strIncludes t.id q

/-- The board invariant: every ticket's `status` names the column holding
it, and no ticket id occurs twice anywhere on the board. -/
def Inv (b : Board) : Prop :=
  (∀ t ∈ b.todo, t.status = "To Do") ∧
  (∀ t ∈ b.inProgress, t.status = "In Progress") ∧
  (∀ t ∈ b.done, t.status = "Done") ∧
  (TicketIds b).Nodup

instance : DecidablePred Inv := fun b => by
  unfold Inv
  infer_instance

/-- Boards reachable from the empty default through the mutating public
operations.  Environment-supplied facts appear as side conditions: a
created ticket's id is fresh (`Date.now().toString()` is assumed
collision-free, as the spec does), `createStatus` and the modal's status
select only ever hold one of the three column names, and the edit modal is
opened on a ticket of the current board.  Drag events are unconstrained.
`onDragStart`/`onDragOver` never change the board (see
`dragSession_board_untouched`), so they need no constructor here. -/
inductive Reachable : Board → Prop where
  | init : Reachable initialColumns
  | create {b : Board} {f : TicketFields} {createStatus newId now : String} :
      Reachable b → createStatus ∈ colKeys → newId ∉ TicketIds b →
      Reachable (createTicket b f createStatus newId now)
  | update {b : Board} {editing : Ticket} {f : TicketFields} {now : String} :
      Reachable b → f.status ∈ colKeys →
      editing ∈ (getCol b editing.status).getD [] →
      Reachable (updateTicket b editing f now)
  | delete {b : Board} {id status : String} :
      Reachable b → Reachable (deleteB b id status)
  | clearBoard {b : Board} :
      Reachable b → Reachable (handleClearBoard b)
  | dragEnd {b : Board} {e : DragEndEvent} :
      Reachable b → Reachable (handleDragEnd b e)

open List

/-! Helper lemmas about column access and list surgery. -/

theorem getCol_mem_colKeys {b : Board} {s : String} {l : List Ticket}
    (h : getCol b s = some l) : s ∈ colKeys := by
  unfold getCol at h
  split_ifs at h <;> simp_all [colKeys]

theorem getCol_setCol_self {b : Board} {s : String} {l : List Ticket}
    (hs : s ∈ colKeys) : getCol (setCol b s l) s = some l := by
  simp only [colKeys, List.mem_cons, List.mem_singleton, List.not_mem_nil, or_false] at hs
  rcases hs with rfl | rfl | rfl <;> simp [getCol, setCol]

theorem getCol_setCol_ne {b : Board} {s s' : String} {l : List Ticket} (h : s' ≠ s) :
    getCol (setCol b s l) s' = getCol b s' := by
  unfold getCol setCol
  split_ifs <;> simp_all

theorem setCol_getCol_self {b : Board} {s : String} {l : List Ticket}
    (h : getCol b s = some l) : setCol b s l = b := by
  unfold getCol at h
  unfold setCol
  split_ifs at h with h1 h2 h3
  · subst h1; injection h with h; subst h; simp
  · subst h2; injection h with h; subst h; simp [h1]
  · subst h3; injection h with h; subst h; simp [h1, h2]

theorem perm_cons_eraseIdx {α : Type} {l : List α} {i : Nat} {a : α}
    (h : l[i]? = some a) : l ~ a :: l.eraseIdx i := by
  have hi : i < l.length := by
    by_contra hlt
    simp [List.getElem?_eq_none (Nat.le_of_not_lt hlt)] at h
  have h2 : l.drop i = a :: l.drop (i + 1) := by
    rw [List.drop_eq_getElem_cons hi]
    simp only [List.getElem?_eq_getElem hi, Option.some.injEq] at h
    rw [h]
  calc l = l.take i ++ (a :: l.drop (i + 1)) := by rw [← h2, List.take_append_drop]
    _ ~ a :: (l.take i ++ l.drop (i + 1)) := List.perm_middle
    _ = a :: l.eraseIdx i := by rw [List.eraseIdx_eq_take_drop_succ]

theorem filter_insertIdx (p : Ticket → Bool) {a : Ticket} (h : p a = false) :
    ∀ (n : Nat) (l : List Ticket), n ≤ l.length →
      (l.insertIdx n a).filter p = l.filter p := by
  intro n
  induction n with
  | zero => intro l _; simp [h]
  | succ n ih =>
    intro l hl
    cases l with
    | nil => simp at hl
    | cons x xs =>
      rw [List.insertIdx_succ_cons]
      cases hx : p x <;>
        simp [List.filter_cons, hx, ih xs (Nat.le_of_succ_le_succ hl)]

theorem filter_eraseIdx (p : Ticket → Bool) :
    ∀ (l : List Ticket) (i : Nat) (a : Ticket), l[i]? = some a → p a = false →
      (l.eraseIdx i).filter p = l.filter p := by
  intro l
  induction l with
  | nil => intro i a h _; simp at h
  | cons x xs ih =>
    intro i a h hpa
    cases i with
    | zero =>
      simp only [List.getElem?_cons_zero, Option.some.injEq] at h
      subst h
      simp [List.eraseIdx, List.filter_cons, hpa]
    | succ i =>
      simp only [List.getElem?_cons_succ] at h
      cases hx : p x <;>
        simp [List.eraseIdx, List.filter_cons, hx, ih i a h hpa]

theorem nodup_append_middle {A B : List String} {x : String}
    (hx : x ∉ A ++ B) (h : (A ++ B).Nodup) : (A ++ x :: B).Nodup :=
  (List.perm_middle.nodup_iff).mpr (List.nodup_cons.mpr ⟨hx, h⟩)

/-! Master lemmas: how `Inv` behaves when one column is replaced. -/

theorem inv_setCol_of_perm {b : Board} {st : String} {l l' : List Ticket}
    (hinv : Inv b) (hcol : getCol b st = some l) (hperm : l' ~ l) :
    Inv (setCol b st l') := by
  obtain ⟨h1, h2, h3, h4⟩ := hinv
  simp only [TicketIds, allTickets, List.map_append] at h4
  have hk := getCol_mem_colKeys hcol
  simp only [colKeys, List.mem_cons, List.not_mem_nil, or_false] at hk
  rcases hk with rfl | rfl | rfl
  · simp only [getCol] at hcol
    injection hcol with hcol
    subst hcol
    have hset : setCol b "To Do" l' = { b with todo := l' } := by simp [setCol]
    rw [hset]
    refine ⟨fun t ht => h1 t (hperm.subset ht), h2, h3, ?_⟩
    simp only [TicketIds, allTickets, List.map_append]
    exact (((hperm.map Ticket.id).append_right _).append_right _).nodup_iff.mpr h4
  · simp only [getCol, reduceIte] at hcol
    injection hcol with hcol
    subst hcol
    have hset : setCol b "In Progress" l' = { b with inProgress := l' } := by simp [setCol]
    rw [hset]
    refine ⟨h1, fun t ht => h2 t (hperm.subset ht), h3, ?_⟩
    simp only [TicketIds, allTickets, List.map_append]
    exact (((Perm.refl _).append (hperm.map Ticket.id)).append_right _).nodup_iff.mpr h4
  · simp only [getCol, reduceIte] at hcol
    injection hcol with hcol
    subst hcol
    have hset : setCol b "Done" l' = { b with done := l' } := by simp [setCol]
    rw [hset]
    refine ⟨h1, h2, fun t ht => h3 t (hperm.subset ht), ?_⟩
    simp only [TicketIds, allTickets, List.map_append]
    exact ((Perm.refl _).append (hperm.map Ticket.id)).nodup_iff.mpr h4

theorem inv_setCol_of_sublist {b : Board} {st : String} {l l' : List Ticket}
    (hinv : Inv b) (hcol : getCol b st = some l) (hsub : l' <+ l) :
    Inv (setCol b st l') := by
  obtain ⟨h1, h2, h3, h4⟩ := hinv
  simp only [TicketIds, allTickets, List.map_append] at h4
  have hk := getCol_mem_colKeys hcol
  simp only [colKeys, List.mem_cons, List.not_mem_nil, or_false] at hk
  rcases hk with rfl | rfl | rfl
  · simp only [getCol] at hcol
    injection hcol with hcol
    subst hcol
    have hset : setCol b "To Do" l' = { b with todo := l' } := by simp [setCol]
    rw [hset]
    refine ⟨fun t ht => h1 t (hsub.subset ht), h2, h3, ?_⟩
    simp only [TicketIds, allTickets, List.map_append]
    exact h4.sublist (((hsub.map Ticket.id).append_right _).append_right _)
  · simp only [getCol, reduceIte] at hcol
    injection hcol with hcol
    subst hcol
    have hset : setCol b "In Progress" l' = { b with inProgress := l' } := by simp [setCol]
    rw [hset]
    refine ⟨h1, fun t ht => h2 t (hsub.subset ht), h3, ?_⟩
    simp only [TicketIds, allTickets, List.map_append]
    exact h4.sublist ((((Sublist.refl _).append (hsub.map Ticket.id))).append_right _)
  · simp only [getCol, reduceIte] at hcol
    injection hcol with hcol
    subst hcol
    have hset : setCol b "Done" l' = { b with done := l' } := by simp [setCol]
    rw [hset]
    refine ⟨h1, h2, fun t ht => h3 t (hsub.subset ht), ?_⟩
    simp only [TicketIds, allTickets, List.map_append]
    exact h4.sublist ((Sublist.refl _).append (hsub.map Ticket.id))

theorem inv_setCol_append {b : Board} {st : String} {l : List Ticket} {t : Ticket}
    (hinv : Inv b) (hcol : getCol b st = some l) (hts : t.status = st)
    (hfresh : t.id ∉ TicketIds b) :
    Inv (setCol b st (l ++ [t])) := by
  obtain ⟨h1, h2, h3, h4⟩ := hinv
  simp only [TicketIds, allTickets, List.map_append] at h4 hfresh
  have hk := getCol_mem_colKeys hcol
  simp only [colKeys, List.mem_cons, List.not_mem_nil, or_false] at hk
  rcases hk with rfl | rfl | rfl
  · simp only [getCol] at hcol
    injection hcol with hcol
    subst hcol
    have hset : setCol b "To Do" (b.todo ++ [t]) = { b with todo := b.todo ++ [t] } := by
      simp [setCol]
    rw [hset]
    refine ⟨?_, h2, h3, ?_⟩
    · intro u hu
      rcases List.mem_append.mp hu with hu | hu
      · exact h1 u hu
      · simp only [List.mem_singleton] at hu; subst hu; exact hts
    · simp only [TicketIds, allTickets, List.map_append]
      have hp : ((b.todo.map Ticket.id ++ [t.id]) ++ b.inProgress.map Ticket.id) ++
          b.done.map Ticket.id ~
          t.id :: ((b.todo.map Ticket.id ++ b.inProgress.map Ticket.id) ++
            b.done.map Ticket.id) :=
        ((List.perm_append_singleton t.id _).append_right _).append_right _
      exact hp.nodup_iff.mpr (List.nodup_cons.mpr ⟨hfresh, h4⟩)
  · simp only [getCol, reduceIte] at hcol
    injection hcol with hcol
    subst hcol
    have hset : setCol b "In Progress" (b.inProgress ++ [t]) =
        { b with inProgress := b.inProgress ++ [t] } := by simp [setCol]
    rw [hset]
    refine ⟨h1, ?_, h3, ?_⟩
    · intro u hu
      rcases List.mem_append.mp hu with hu | hu
      · exact h2 u hu
      · simp only [List.mem_singleton] at hu; subst hu; exact hts
    · simp only [TicketIds, allTickets, List.map_append]
      have hp : (b.todo.map Ticket.id ++ (b.inProgress.map Ticket.id ++ [t.id])) ++
          b.done.map Ticket.id ~
          t.id :: ((b.todo.map Ticket.id ++ b.inProgress.map Ticket.id) ++
            b.done.map Ticket.id) :=
        (((Perm.refl _).append (List.perm_append_singleton t.id _)).append_right _).trans
          (List.perm_middle.append_right _)
      exact hp.nodup_iff.mpr (List.nodup_cons.mpr ⟨hfresh, h4⟩)
  · simp only [getCol, reduceIte] at hcol
    injection hcol with hcol
    subst hcol
    have hset : setCol b "Done" (b.done ++ [t]) = { b with done := b.done ++ [t] } := by
      simp [setCol]
    rw [hset]
    refine ⟨h1, h2, ?_, ?_⟩
    · intro u hu
      rcases List.mem_append.mp hu with hu | hu
      · exact h3 u hu
      · simp only [List.mem_singleton] at hu; subst hu; exact hts
    · simp only [TicketIds, allTickets, List.map_append]
      have hp : (b.todo.map Ticket.id ++ b.inProgress.map Ticket.id) ++
          (b.done.map Ticket.id ++ [t.id]) ~
          t.id :: ((b.todo.map Ticket.id ++ b.inProgress.map Ticket.id) ++
            b.done.map Ticket.id) :=
        ((Perm.refl _).append (List.perm_append_singleton t.id _)).trans List.perm_middle
      exact hp.nodup_iff.mpr (List.nodup_cons.mpr ⟨hfresh, h4⟩)

theorem notMem_ticketIds_setCol {b : Board} {st : String} {l l' : List Ticket} {x : String}
    (hnd : (TicketIds b).Nodup) (hcol : getCol b st = some l)
    (hx : x ∈ l.map Ticket.id) (hx' : x ∉ l'.map Ticket.id) :
    x ∉ TicketIds (setCol b st l') := by
  simp only [TicketIds, allTickets, List.map_append] at hnd ⊢
  have hk := getCol_mem_colKeys hcol
  simp only [colKeys, List.mem_cons, List.not_mem_nil, or_false] at hk
  rcases hk with rfl | rfl | rfl
  · simp only [getCol] at hcol
    injection hcol with hcol
    subst hcol
    have hset : setCol b "To Do" l' = { b with todo := l' } := by simp [setCol]
    rw [hset]
    simp only [List.append_assoc] at hnd ⊢
    intro hmem
    rcases List.mem_append.mp hmem with hmem | hmem
    · exact hx' hmem
    · exact List.disjoint_of_nodup_append hnd hx hmem
  · simp only [getCol, reduceIte] at hcol
    injection hcol with hcol
    subst hcol
    have hset : setCol b "In Progress" l' = { b with inProgress := l' } := by simp [setCol]
    rw [hset]
    simp only [List.append_assoc] at hnd ⊢
    intro hmem
    have hdisj1 := List.disjoint_of_nodup_append hnd
    have hnd2 := (List.nodup_append.mp hnd).2.1
    have hdisj2 := List.disjoint_of_nodup_append hnd2
    rcases List.mem_append.mp hmem with hmem | hmem
    · exact hdisj1 hmem (List.mem_append_left _ hx)
    · rcases List.mem_append.mp hmem with hmem | hmem
      · exact hx' hmem
      · exact hdisj2 hx hmem
  · simp only [getCol, reduceIte] at hcol
    injection hcol with hcol
    subst hcol
    have hset : setCol b "Done" l' = { b with done := l' } := by simp [setCol]
    rw [hset]
    simp only [List.append_assoc] at hnd ⊢
    intro hmem
    have hdisj1 := List.disjoint_of_nodup_append hnd
    have hnd2 := (List.nodup_append.mp hnd).2.1
    have hdisj2 := List.disjoint_of_nodup_append hnd2
    rcases List.mem_append.mp hmem with hmem | hmem
    · exact hdisj1 hmem (List.mem_append_right _ hx)
    · rcases List.mem_append.mp hmem with hmem | hmem
      · exact hdisj2 hmem hx
      · exact hx' hmem

theorem getCol_of_mem_colKeys {b : Board} {s : String} (hs : s ∈ colKeys) :
    ∃ l, getCol b s = some l := by
  simp only [colKeys, List.mem_cons, List.not_mem_nil, or_false] at hs
  rcases hs with rfl | rfl | rfl <;> simp [getCol]

theorem nodup_col {b : Board} {st : String} {l : List Ticket}
    (hnd : (TicketIds b).Nodup) (hcol : getCol b st = some l) :
    (l.map Ticket.id).Nodup := by
  simp only [TicketIds, allTickets, List.map_append] at hnd
  have hk := getCol_mem_colKeys hcol
  simp only [colKeys, List.mem_cons, List.not_mem_nil, or_false] at hk
  rcases hk with rfl | rfl | rfl
  · simp only [getCol] at hcol
    injection hcol with hcol
    subst hcol
    exact hnd.sublist ((List.sublist_append_left _ _).trans (List.sublist_append_left _ _))
  · simp only [getCol, reduceIte] at hcol
    injection hcol with hcol
    subst hcol
    exact hnd.sublist ((List.sublist_append_right _ _).trans (List.sublist_append_left _ _))
  · simp only [getCol, reduceIte] at hcol
    injection hcol with hcol
    subst hcol
    exact hnd.sublist (List.sublist_append_right _ _)

theorem resolveDestination_mem_colKeys {b : Board} {o d : String}
    (h : resolveDestination b o = some d) : d ∈ colKeys := by
  unfold resolveDestination at h
  cases hc : containerOf b o with
  | some s =>
    rw [hc] at h
    injection h with h
    subst h
    exact List.mem_of_find?_eq_some hc
  | none =>
    rw [hc] at h
    split_ifs at h with hk
    injection h with h
    subst h
    exact hk

theorem arrayMove_eq {l : List Ticket} {i : Nat} {a : Ticket} (h : l[i]? = some a)
    (j : Nat) :
    arrayMove l i j = (l.eraseIdx i).insertIdx (min j (l.eraseIdx i).length) a := by
  unfold arrayMove
  rw [h]

theorem arrayMove_perm (l : List Ticket) (i j : Nat) : arrayMove l i j ~ l := by
  unfold arrayMove
  cases h : l[i]? with
  | none => exact Perm.refl l
  | some a =>
    exact (List.perm_insertIdx a _ (Nat.min_le_right _ _)).trans (perm_cons_eraseIdx h).symm

/-! Invariant preservation, one lemma per mutating operation. -/

theorem inv_initialColumns : Inv initialColumns := by
  refine ⟨?_, ?_, ?_, ?_⟩ <;> simp [initialColumns, TicketIds, allTickets]

theorem inv_createTicket {b : Board} {f : TicketFields} {createStatus newId now : String}
    (hinv : Inv b) (hcs : createStatus ∈ colKeys) (hfresh : newId ∉ TicketIds b) :
    Inv (createTicket b f createStatus newId now) := by
  unfold createTicket
  cases hval : fieldsInvalid f
  · have hne : createStatus ≠ "" := by
      simp only [colKeys, List.mem_cons, List.not_mem_nil, or_false] at hcs
      rcases hcs with rfl | rfl | rfl <;> decide
    obtain ⟨l, hl⟩ := getCol_of_mem_colKeys (b := b) hcs
    simp only [hval, Bool.false_eq_true, if_false, if_neg hne, hl, Option.getD_some]
    exact inv_setCol_append hinv hl rfl hfresh
  · simp only [hval, if_true]
    exact hinv

theorem inv_updateTicket {b : Board} {editing : Ticket} {f : TicketFields} {now : String}
    (hinv : Inv b) (hfs : f.status ∈ colKeys)
    (hmem : editing ∈ (getCol b editing.status).getD []) :
    Inv (updateTicket b editing f now) := by
  unfold updateTicket
  cases hval : fieldsInvalid f
  · cases hcol : getCol b editing.status with
    | none => simp only [hval, Bool.false_eq_true, if_false, hcol]; exact hinv
    | some srcList =>
      rw [hcol, Option.getD_some] at hmem
      have hinv1 : Inv (setCol b editing.status
          (srcList.filter (fun t => t.id != editing.id))) :=
        inv_setCol_of_sublist hinv hcol (List.filter_sublist _)
      have hfresh1 : editing.id ∉ TicketIds (setCol b editing.status
          (srcList.filter (fun t => t.id != editing.id))) := by
        refine notMem_ticketIds_setCol hinv.2.2.2 hcol (List.mem_map_of_mem _ hmem) ?_
        intro hcontra
        simp only [List.mem_map] at hcontra
        obtain ⟨t, ht, hid⟩ := hcontra
        have := List.of_mem_filter ht
        simp [hid] at this
      obtain ⟨l2, hl2⟩ := getCol_of_mem_colKeys
        (b := setCol b editing.status (srcList.filter (fun t => t.id != editing.id))) hfs
      simp only [hval, Bool.false_eq_true, if_false, hcol, hl2, Option.getD_some]
      exact inv_setCol_append hinv1 hl2 rfl hfresh1
  · simp only [hval, if_true]
    exact hinv

theorem inv_deleteB {b : Board} {id status : String} (hinv : Inv b) :
    Inv (deleteB b id status) := by
  unfold deleteB handleDeleteTicket
  cases hguard : (id == "" || status == "")
  · cases hcol : getCol b status with
    | none => simp only [hguard, Bool.false_eq_true, if_false, hcol]; exact hinv
    | some col =>
      simp only [hguard, Bool.false_eq_true, if_false, hcol]
      exact inv_setCol_of_sublist hinv hcol (List.filter_sublist _)
  · simp only [hguard, if_true]
    exact hinv

theorem inv_handleClearBoard (b : Board) : Inv (handleClearBoard b) :=
  inv_initialColumns

theorem inv_handleDragEnd {b : Board} {e : DragEndEvent} (hinv : Inv b) :
    Inv (handleDragEnd b e) := by
  obtain ⟨activeId, overId, sourceStatus⟩ := e
  unfold handleDragEnd
  cases overId with
  | none => exact hinv
  | some o =>
    cases sourceStatus with
    | none => exact hinv
    | some src =>
      cases hdst : resolveDestination b o with
      | none => simp only [hdst]; exact hinv
      | some dst =>
        simp only [hdst]
        by_cases hsd : src = dst
        · rw [if_pos hsd]
          cases hfind : ((getCol b src).getD []).findIdx? (fun t => t.id == activeId) with
          | none => simp only [hfind]; exact hinv
          | some oldIndex =>
            simp only [hfind]
            cases hcol : getCol b src with
            | none => rw [hcol] at hfind; simp at hfind
            | some l =>
              simp only [hcol, Option.getD_some]
              exact inv_setCol_of_perm hinv hcol (arrayMove_perm l oldIndex _)
        · rw [if_neg hsd]
          cases hfind : ((getCol b src).getD []).findIdx? (fun t => t.id == activeId) with
          | none => simp only [hfind]; exact hinv
          | some movingIndex =>
            simp only [hfind]
            cases hget : ((getCol b src).getD [])[movingIndex]? with
            | none => simp only [hget]; exact hinv
            | some moving =>
              simp only [hget]
              cases hcol : getCol b src with
              | none => rw [hcol] at hget; simp at hget
              | some srcList =>
                rw [hcol, Option.getD_some] at hget
                simp only [hcol, Option.getD_some]
                have hinv1 := inv_setCol_of_sublist hinv hcol
                  (List.eraseIdx_sublist srcList movingIndex)
                have hndsrc := nodup_col hinv.2.2.2 hcol
                have hmemid : moving.id ∈ srcList.map Ticket.id :=
                  List.mem_map_of_mem _ (List.getElem?_mem hget)
                have hnotin : moving.id ∉ (srcList.eraseIdx movingIndex).map Ticket.id := by
                  have hperm := (perm_cons_eraseIdx hget).map Ticket.id
                  simp only [List.map_cons] at hperm
                  exact (List.nodup_cons.mp (hperm.nodup_iff.mp hndsrc)).1
                have hfresh1 : moving.id ∉
                    TicketIds (setCol b src (srcList.eraseIdx movingIndex)) :=
                  notMem_ticketIds_setCol hinv.2.2.2 hcol hmemid hnotin
                obtain ⟨dl, hdl⟩ := getCol_of_mem_colKeys (b := b)
                  (resolveDestination_mem_colKeys hdst)
                have hdl1 : getCol (setCol b src (srcList.eraseIdx movingIndex)) dst =
                    some dl := by
                  rw [getCol_setCol_ne (fun h => hsd h.symm), hdl]
                simp only [hdl, Option.getD_some]
                exact inv_setCol_append hinv1 hdl1 rfl hfresh1

theorem getCol_eq_none_of_not_mem {b : Board} {s : String} (h : s ∉ colKeys) :
    getCol b s = none := by
  unfold getCol
  split_ifs with h1 h2 h3
  · exact absurd (by simp [colKeys, h1]) h
  · exact absurd (by simp [colKeys, h2]) h
  · exact absurd (by simp [colKeys, h3]) h
  · rfl

theorem setCol_eq_of_getCol_none {b : Board} {s : String} {l : List Ticket}
    (h : getCol b s = none) : setCol b s l = b := by
  unfold getCol at h
  unfold setCol
  split_ifs at h ⊢
  all_goals simp_all

theorem setCol_setCol_same (b : Board) (s : String) (l l' : List Ticket) :
    setCol (setCol b s l) s l' = setCol b s l' := by
  unfold setCol
  split_ifs <;> rfl

theorem mem_allTickets_setCol {b : Board} {s : String} {l' : List Ticket} {t : Ticket}
    (h : t ∈ allTickets (setCol b s l')) : t ∈ l' ∨ t ∈ allTickets b := by
  unfold setCol at h
  split_ifs at h <;> simp only [allTickets, List.mem_append] at h ⊢ <;> tauto

theorem mem_allTickets_of_getCol {b : Board} {s : String} {l : List Ticket} {t : Ticket}
    (hcol : getCol b s = some l) (ht : t ∈ l) : t ∈ allTickets b := by
  unfold getCol at hcol
  split_ifs at hcol
  all_goals injection hcol with hcol
  all_goals subst hcol
  all_goals simp only [allTickets, List.mem_append]
  all_goals tauto

/-! Claim theorems. -/

/-- C1: every board reachable from the empty default via the public
operations (create, update, delete, clear and the drag handlers) keeps
each ticket's `status` equal to the name of the column holding it, with no
ticket id occurring in two places; `onDragStart` and `onDragOver` never
touch the board at all. -/
theorem claim_C1_board_invariant :
    (∀ b : Board, Reachable b → Inv b) ∧
    (∀ (st : AppState) (activeId : String), (handleDragStart st activeId).board = st.board) ∧
    (∀ (st : AppState) (overId : Option String), (handleDragOver st overId).board = st.board) := by
  refine ⟨?_, fun st a => rfl, fun st o => rfl⟩
  intro b h
  induction h with
  | init => exact inv_initialColumns
  | create _ hcs hfresh ih => exact inv_createTicket ih hcs hfresh
  | update _ hfs hmem ih => exact inv_updateTicket ih hfs hmem
  | delete _ ih => exact inv_deleteB ih
  | clearBoard _ _ => exact inv_handleClearBoard _
  | dragEnd _ ih => exact inv_handleDragEnd ih

/-- Witness for C1: a concrete reachable board (create one ticket, then
drag it to `In Progress`) satisfies the invariant. -/
theorem claim_C1_board_invariant_witness :
    Reachable (handleDragEnd
      (createTicket initialColumns ⟨"Fix bug", "", "Alice", 3, "Medium", "To Do"⟩
        "To Do" "1" "t0")
      ⟨"1", some "In Progress", some "To Do"⟩) ∧
    Inv (handleDragEnd
      (createTicket initialColumns ⟨"Fix bug", "", "Alice", 3, "Medium", "To Do"⟩
        "To Do" "1" "t0")
      ⟨"1", some "In Progress", some "To Do"⟩) := by
  have hr : Reachable (handleDragEnd
      (createTicket initialColumns ⟨"Fix bug", "", "Alice", 3, "Medium", "To Do"⟩
        "To Do" "1" "t0")
      ⟨"1", some "In Progress", some "To Do"⟩) :=
    Reachable.dragEnd (Reachable.create Reachable.init (by decide) (by decide))
  exact ⟨hr, claim_C1_board_invariant.1 _ hr⟩

/-- C6 (amended): `create` performs no mutation — the resulting board is
the input board — whenever the title is empty, the assignee is empty, or
`tentativeTime` is zero.  (The claim's "not a positive number" is too
strong: the code's truthiness guard lets negative values through, see the
counterexample; and the rejection is a silent early return rather than a
raised `ValidationError`.) -/
theorem claim_C6_validation (b : Board) (f : TicketFields) (cs id now : String)
    (h : f.title = "" ∨ f.assignedTo = "" ∨ f.tentativeTime = 0) :
    createTicket b f cs id now = b := by
  unfold createTicket
  have hval : fieldsInvalid f = true := by
    unfold fieldsInvalid
    rcases h with h | h | h <;> simp [h]
  simp [hval]

/-- Witness for C6: Scenario 5 — `create({title:"", assignedTo:"Bob",
tentativeTime:1})` leaves the board unchanged. -/
theorem claim_C6_validation_witness :
    (("" : String) = "" ∨ ("Bob" : String) = "" ∨ (1 : Int) = 0) ∧
    createTicket initialColumns ⟨"", "", "Bob", 1, "Medium", "To Do"⟩ "To Do" "9" "t0" =
      initialColumns :=
  ⟨Or.inl rfl,
   claim_C6_validation initialColumns ⟨"", "", "Bob", 1, "Medium", "To Do"⟩ "To Do" "9" "t0"
     (Or.inl rfl)⟩

/-- C6 counterexample: a negative `tentativeTime` is not a positive
number, yet `create` does mutate the board — the truthiness guard only
rejects `0`. -/
theorem claim_C6_counterexample :
    ¬ (0 < (-1 : Int)) ∧
    createTicket initialColumns ⟨"Fix", "", "Bob", -1, "Medium", "To Do"⟩ "To Do" "9" "t0" ≠
      initialColumns := by
  decide

/-- C7: deleting twice yields the same board as deleting once, for every
board, id and status (including the guard and throwing cases, where the
board never changes); and when the named column exists but holds no ticket
with the id, delete succeeds as a no-op returning the board unchanged. -/
theorem claim_C7_delete_idempotent (b : Board) (id status : String) :
    deleteB (deleteB b id status) id status = deleteB b id status ∧
    (∀ col, getCol b status = some col → (∀ t ∈ col, t.id ≠ id) →
      handleDeleteTicket b id status = Except.ok b) := by
  constructor
  · unfold deleteB handleDeleteTicket
    cases hguard : (id == "" || status == "")
    · cases hcol : getCol b status with
      | none =>
        simp only [hguard, Bool.false_eq_true, if_false, hcol]
      | some col =>
        have hk := getCol_mem_colKeys hcol
        simp only [hguard, Bool.false_eq_true, if_false, hcol,
          getCol_setCol_self (l := col.filter (fun t => t.id != id)) hk,
          setCol_setCol_same]
        congr 1
        rw [List.filter_filter]
        apply List.filter_congr
        intro t _
        cases h : (t.id != id) <;> simp [h]
    · simp [hguard]
  · intro col hcol hno
    unfold handleDeleteTicket
    cases hguard : (id == "" || status == "")
    · have hfilter : col.filter (fun t => t.id != id) = col := by
        apply List.filter_eq_self.mpr
        intro t ht
        simpa using hno t ht
      simp only [hguard, Bool.false_eq_true, if_false, hcol, hfilter,
        setCol_getCol_self hcol]
    · simp [hguard]

/-- Witness for C7: on a board holding one ticket `"A"` in `To Do`,
deleting the absent id `"9"` once or twice returns the board unchanged and
is not an error. -/
theorem claim_C7_delete_idempotent_witness :
    deleteB (deleteB ⟨[⟨"A", "a", "", "X", 1, "Low", "To Do", "c", "u"⟩], [], []⟩ "9" "To Do")
        "9" "To Do" =
      deleteB ⟨[⟨"A", "a", "", "X", 1, "Low", "To Do", "c", "u"⟩], [], []⟩ "9" "To Do" ∧
    handleDeleteTicket ⟨[⟨"A", "a", "", "X", 1, "Low", "To Do", "c", "u"⟩], [], []⟩ "9" "To Do" =
      Except.ok ⟨[⟨"A", "a", "", "X", 1, "Low", "To Do", "c", "u"⟩], [], []⟩ := by
  refine ⟨(claim_C7_delete_idempotent _ "9" "To Do").1,
    (claim_C7_delete_idempotent _ "9" "To Do").2
      [⟨"A", "a", "", "X", 1, "Low", "To Do", "c", "u"⟩] rfl ?_⟩
  decide

/-- C8 (amended): `load` returns the default empty board when the stored
blob is absent, and the deserialized board when a parsable blob is
present; but a present, unparsable blob makes `JSON.parse` throw a
`SyntaxError` that propagates — there is no fallback for corruption.  (The
claim's "absent or unparsable ⇒ default, never failing" is refuted by the
counterexample.) -/
theorem claim_C8_load (b : Board) :
    loadFromLocalStorage none = Except.ok initialColumns ∧
    loadFromLocalStorage (some (some b)) = Except.ok b ∧
    loadFromLocalStorage (some none) = Except.error JsError.syntaxError :=
  ⟨rfl, rfl, rfl⟩

/-- C8 counterexample: a present but unparsable blob does not produce the
default board — `load` fails with a propagated error. -/
theorem claim_C8_counterexample :
    loadFromLocalStorage (some none) = Except.error JsError.syntaxError ∧
    ∀ b : Board, loadFromLocalStorage (some none) ≠ Except.ok b := by
  refine ⟨rfl, ?_⟩
  intro b h
  exact Except.noConfusion h

/-- C10: for a non-empty id and a non-empty status that is not one of the
three column keys, `handleDeleteTicket` evaluates `.filter` on `undefined`
and throws a `TypeError`; the input guard short-circuits only on falsy
(empty) id or status. -/
theorem claim_C10_delete_typeError (b : Board) (id status : String) :
    (id ≠ "" → status ≠ "" → status ∉ colKeys →
      handleDeleteTicket b id status = Except.error JsError.typeError) ∧
    ((id = "" ∨ status = "") → handleDeleteTicket b id status = Except.ok b) := by
  constructor
  · intro hid hst hkey
    unfold handleDeleteTicket
    have hguard : (id == "" || status == "") = false := by
      simp [hid, hst]
    simp only [hguard, Bool.false_eq_true, if_false,
      getCol_eq_none_of_not_mem hkey]
  · intro h
    unfold handleDeleteTicket
    have hguard : (id == "" || status == "") = true := by
      rcases h with h | h <;> simp [h]
    simp [hguard]

/-- C4: a drag end whose hover target is neither a column key nor a ticket
present in some column leaves the board unchanged, as does a missing hover
target, a missing recorded source, or a dragged ticket that cannot be
found in the recorded source column; and in every case the drag session
(`draggedTicket`, `dragEnabledId`) is cleared back to idle. -/
theorem claim_C4_drag_abort (st : AppState) (e : DragEndEvent) :
    (handleDragEndApp st e).draggedTicket = none ∧
    (handleDragEndApp st e).dragEnabledId = none ∧
    (e.overId = none → (handleDragEndApp st e).board = st.board) ∧
    (∀ o, e.overId = some o → o ∉ colKeys → containerOf st.board o = none →
      (handleDragEndApp st e).board = st.board) ∧
    (e.sourceStatus = none → (handleDragEndApp st e).board = st.board) ∧
    (∀ S, e.sourceStatus = some S →
      (∀ t ∈ (getCol st.board S).getD [], t.id ≠ e.activeId) →
      (handleDragEndApp st e).board = st.board) := by
  obtain ⟨b, dt, de⟩ := st
  obtain ⟨activeId, overId, sourceStatus⟩ := e
  refine ⟨rfl, rfl, ?_, ?_, ?_, ?_⟩
  · intro h
    simp only at h
    subst h
    rfl
  · intro o ho hk hc
    simp only at ho hc ⊢
    subst ho
    show handleDragEnd b ⟨activeId, some o, sourceStatus⟩ = b
    have hres : resolveDestination b o = none := by
      unfold resolveDestination
      rw [hc, if_neg hk]
    unfold handleDragEnd
    cases sourceStatus with
    | none => rfl
    | some src => simp only [hres]
  · intro h
    simp only at h
    subst h
    show handleDragEnd b ⟨activeId, overId, none⟩ = b
    cases overId <;> rfl
  · intro S hS hno
    simp only at hS hno ⊢
    subst hS
    show handleDragEnd b ⟨activeId, overId, some S⟩ = b
    cases overId with
    | none => rfl
    | some o =>
      unfold handleDragEnd
      cases hres : resolveDestination b o with
      | none => simp only [hres]
      | some dst =>
        simp only [hres]
        have hfind : ((getCol b S).getD []).findIdx? (fun t => t.id == activeId) = none := by
          rw [List.findIdx?_eq_none_iff]
          intro t ht
          simpa using hno t ht
        by_cases hsd : S = dst
        · rw [if_pos hsd]
          simp only [hfind]
        · rw [if_neg hsd]
          simp only [hfind]

/-- Witness for C4: dropping over the unknown target `"bogus"` leaves a
concrete one-ticket board unchanged and clears the session. -/
theorem claim_C4_drag_abort_witness :
    ("bogus" : String) ∉ colKeys ∧
    containerOf ⟨[⟨"A", "a", "", "X", 1, "Low", "To Do", "c", "u"⟩], [], []⟩ "bogus" = none ∧
    (handleDragEndApp
      ⟨⟨[⟨"A", "a", "", "X", 1, "Low", "To Do", "c", "u"⟩], [], []⟩,
        some ⟨"A", "a", "", "X", 1, "Low", "To Do", "c", "u"⟩, some "A"⟩
      ⟨"A", some "bogus", some "To Do"⟩).board =
      ⟨[⟨"A", "a", "", "X", 1, "Low", "To Do", "c", "u"⟩], [], []⟩ ∧
    (handleDragEndApp
      ⟨⟨[⟨"A", "a", "", "X", 1, "Low", "To Do", "c", "u"⟩], [], []⟩,
        some ⟨"A", "a", "", "X", 1, "Low", "To Do", "c", "u"⟩, some "A"⟩
      ⟨"A", some "bogus", some "To Do"⟩).draggedTicket = none ∧
    (handleDragEndApp
      ⟨⟨[⟨"A", "a", "", "X", 1, "Low", "To Do", "c", "u"⟩], [], []⟩,
        some ⟨"A", "a", "", "X", 1, "Low", "To Do", "c", "u"⟩, some "A"⟩
      ⟨"A", some "bogus", some "To Do"⟩).dragEnabledId = none := by
  refine ⟨by decide, by decide, ?_, ?_, ?_⟩
  · exact (claim_C4_drag_abort _ _).2.2.2.1 "bogus" rfl (by decide) (by decide)
  · exact (claim_C4_drag_abort _ _).1
  · exact (claim_C4_drag_abort _ _).2.1

/-- C2: when a drag of the ticket at index `i` of source column `S` ends
with the destination resolving to a different column `D`, the ticket is
removed from `S` at its current index, its `status` is rewritten to `D`,
and it is appended as the last element of `D`'s sequence (tail-append);
every other occupant of `S` keeps its place and, when `S` has no duplicate
ids, `S` no longer contains the dragged id at all. -/
theorem claim_C2_cross_column_transfer {b : Board} {e : DragEndEvent} {S D o : String}
    {srcList : List Ticket} {i : Nat} {T : Ticket}
    (hS : e.sourceStatus = some S)
    (ho : e.overId = some o)
    (hD : resolveDestination b o = some D)
    (hne : D ≠ S)
    (hcol : getCol b S = some srcList)
    (hfind : srcList.findIdx? (fun t => t.id == e.activeId) = some i)
    (hT : srcList[i]? = some T) :
    getCol (handleDragEnd b e) S = some (srcList.eraseIdx i) ∧
    getCol (handleDragEnd b e) D =
      some (((getCol b D).getD []) ++ [{ T with status := D }]) ∧
    ({ T with status := D }).status = D ∧
    T.id = e.activeId ∧
    ((srcList.map Ticket.id).Nodup →
      ∀ u ∈ srcList.eraseIdx i, u.id ≠ e.activeId) := by
  have hkS : S ∈ colKeys := getCol_mem_colKeys hcol
  have hkD : D ∈ colKeys := resolveDestination_mem_colKeys hD
  have hne' : S ≠ D := fun h => hne h.symm
  have hTid : T.id = e.activeId := by
    obtain ⟨hlt, hp, -⟩ := List.findIdx?_eq_some_iff_getElem.mp hfind
    have hgot : srcList[i]? = some srcList[i] := List.getElem?_eq_getElem hlt
    rw [hgot] at hT
    injection hT with hT
    subst hT
    exact eq_of_beq hp
  have hres : handleDragEnd b e =
      setCol (setCol b S (srcList.eraseIdx i)) D
        (((getCol b D).getD []) ++ [{ T with status := D }]) := by
    unfold handleDragEnd
    rw [ho]
    simp only
    rw [hS]
    simp only
    rw [hD]
    simp only
    rw [if_neg hne']
    simp only [hcol, Option.getD_some, hfind, hT]
  refine ⟨?_, ?_, rfl, hTid, ?_⟩
  · rw [hres, getCol_setCol_ne hne', getCol_setCol_self hkS]
  · rw [hres, getCol_setCol_self hkD]
  · intro hnd u hu heq
    have hperm := (perm_cons_eraseIdx hT).map Ticket.id
    simp only [List.map_cons] at hperm
    have hhead : T.id ∉ (srcList.eraseIdx i).map Ticket.id :=
      (List.nodup_cons.mp (hperm.nodup_iff.mp hnd)).1
    exact hhead (by rw [hTid, ← heq]; exact List.mem_map_of_mem _ hu)

/-- Witness for C2: Scenario 2 — a board with ticket `"T1"` in `To Do`;
dragging it and dropping on the `In Progress` column puts it at the tail
of `In Progress` with `status = "In Progress"`, and `To Do` becomes
empty. -/
theorem claim_C2_cross_column_transfer_witness :
    resolveDestination ⟨[⟨"T1", "t", "", "X", 1, "Low", "To Do", "c", "u"⟩], [], []⟩
      "In Progress" = some "In Progress" ∧
    getCol (handleDragEnd ⟨[⟨"T1", "t", "", "X", 1, "Low", "To Do", "c", "u"⟩], [], []⟩
      ⟨"T1", some "In Progress", some "To Do"⟩) "To Do" = some [] ∧
    getCol (handleDragEnd ⟨[⟨"T1", "t", "", "X", 1, "Low", "To Do", "c", "u"⟩], [], []⟩
      ⟨"T1", some "In Progress", some "To Do"⟩) "In Progress" =
      some [⟨"T1", "t", "", "X", 1, "Low", "In Progress", "c", "u"⟩] := by
  have h := @claim_C2_cross_column_transfer
    ⟨[⟨"T1", "t", "", "X", 1, "Low", "To Do", "c", "u"⟩], [], []⟩
    ⟨"T1", some "In Progress", some "To Do"⟩
    "To Do" "In Progress" "In Progress"
    [⟨"T1", "t", "", "X", 1, "Low", "To Do", "c", "u"⟩] 0
    ⟨"T1", "t", "", "X", 1, "Low", "To Do", "c", "u"⟩
    rfl rfl (by decide) (by decide) rfl (by decide) rfl
  refine ⟨by decide, ?_, ?_⟩
  · simpa using h.1
  · simpa using h.2.1

/-- C3: for a same-column drag of the ticket `A` sitting at `oldIdx`, the
resulting sequence is exactly `A` removed from its old index and
reinserted at the resolved target index — the hovered sibling's index when
the hover target is a ticket of the column, the end of the list when it is
not — and the relative order of all tickets other than `A` is unchanged
(their filtered subsequence is preserved verbatim). -/
theorem claim_C3_same_column_reorder {b : Board} {e : DragEndEvent} {S o : String}
    {srcList : List Ticket} {oldIdx : Nat} {A : Ticket}
    (hS : e.sourceStatus = some S)
    (ho : e.overId = some o)
    (hD : resolveDestination b o = some S)
    (hcol : getCol b S = some srcList)
    (hfind : srcList.findIdx? (fun t => t.id == e.activeId) = some oldIdx)
    (hA : srcList[oldIdx]? = some A) :
    (∀ k, srcList.findIdx? (fun t => t.id == o) = some k →
      getCol (handleDragEnd b e) S = some ((srcList.eraseIdx oldIdx).insertIdx k A)) ∧
    (srcList.findIdx? (fun t => t.id == o) = none →
      getCol (handleDragEnd b e) S = some ((srcList.eraseIdx oldIdx) ++ [A])) ∧
    (∀ l', getCol (handleDragEnd b e) S = some l' →
      l'.filter (fun t => t.id != e.activeId) =
        srcList.filter (fun t => t.id != e.activeId)) := by
  have hkS : S ∈ colKeys := getCol_mem_colKeys hcol
  have hold : oldIdx < srcList.length :=
    (List.findIdx?_eq_some_iff_findIdx_eq.mp hfind).1
  have herlen : (srcList.eraseIdx oldIdx).length = srcList.length - 1 :=
    List.length_eraseIdx_of_lt hold
  have hpA : (fun t => t.id != e.activeId) A = false := by
    obtain ⟨hlt, hp, -⟩ := List.findIdx?_eq_some_iff_getElem.mp hfind
    have hgot : srcList[oldIdx]? = some srcList[oldIdx] := List.getElem?_eq_getElem hlt
    rw [hgot] at hA
    injection hA with hA
    subst hA
    simpa using eq_of_beq hp
  have hres : handleDragEnd b e = setCol b S (arrayMove srcList oldIdx
      (match srcList.findIdx? (fun t => t.id == o) with
       | some k => k
       | none => srcList.length - 1)) := by
    unfold handleDragEnd
    rw [ho]
    simp only
    rw [hS]
    simp only
    rw [hD]
    simp only [if_true, hcol, Option.getD_some, hfind]
  refine ⟨?_, ?_, ?_⟩
  · intro k hk
    have hklt : k < srcList.length :=
      (List.findIdx?_eq_some_iff_findIdx_eq.mp hk).1
    have hmin : min k (srcList.eraseIdx oldIdx).length = k := by
      rw [herlen]
      exact Nat.min_eq_left (Nat.le_sub_one_of_lt hklt)
    rw [hres, hk, arrayMove_eq hA, hmin, getCol_setCol_self hkS]
  · intro hk
    have hmin : min (srcList.length - 1) (srcList.eraseIdx oldIdx).length =
        (srcList.eraseIdx oldIdx).length := by
      rw [herlen]
      exact Nat.min_self _
    rw [hres, hk, arrayMove_eq hA, hmin, List.insertIdx_length_self,
      getCol_setCol_self hkS]
  · intro l' hl'
    rw [hres, getCol_setCol_self hkS] at hl'
    injection hl' with hl'
    subst hl'
    rw [arrayMove_eq hA]
    rw [filter_insertIdx _ hpA _ _ (Nat.min_le_right _ _)]
    exact filter_eraseIdx _ srcList oldIdx A hA hpA

/-- Witness for C3: Scenario 3 — `To Do = [A, B, C]`, dragging `A` and
dropping on `C` yields `[B, C, A]`. -/
theorem claim_C3_same_column_reorder_witness :
    getCol (handleDragEnd
      ⟨[⟨"A", "a", "", "X", 1, "Low", "To Do", "c", "u"⟩,
        ⟨"B", "b", "", "X", 1, "Low", "To Do", "c", "u"⟩,
        ⟨"C", "c", "", "X", 1, "Low", "To Do", "c", "u"⟩], [], []⟩
      ⟨"A", some "C", some "To Do"⟩) "To Do" =
      some [⟨"B", "b", "", "X", 1, "Low", "To Do", "c", "u"⟩,
            ⟨"C", "c", "", "X", 1, "Low", "To Do", "c", "u"⟩,
            ⟨"A", "a", "", "X", 1, "Low", "To Do", "c", "u"⟩] := by
  have h := @claim_C3_same_column_reorder
    ⟨[⟨"A", "a", "", "X", 1, "Low", "To Do", "c", "u"⟩,
      ⟨"B", "b", "", "X", 1, "Low", "To Do", "c", "u"⟩,
      ⟨"C", "c", "", "X", 1, "Low", "To Do", "c", "u"⟩], [], []⟩
    ⟨"A", some "C", some "To Do"⟩ "To Do" "C"
    [⟨"A", "a", "", "X", 1, "Low", "To Do", "c", "u"⟩,
     ⟨"B", "b", "", "X", 1, "Low", "To Do", "c", "u"⟩,
     ⟨"C", "c", "", "X", 1, "Low", "To Do", "c", "u"⟩]
    0 ⟨"A", "a", "", "X", 1, "Low", "To Do", "c", "u"⟩
    rfl rfl (by decide) rfl (by decide) rfl
  have h2 := h.1 2 (by decide)
  simpa using h2

/-- C5 (amended): `create` stamps `createdAt = updatedAt = now` on the
ticket it adds; `update` stamps `updatedAt = now` while preserving
`createdAt`; but a drag-completed move — reorder or cross-column transfer
— never changes any ticket's `createdAt` or `updatedAt` (every ticket of
the result keeps the timestamps of the same-id ticket of the input board).
The claim's assertion that a cross-column drag refreshes `updatedAt` is
refuted by the counterexample. -/
theorem claim_C5_timestamps :
    (∀ (b : Board) (f : TicketFields) (cs id now : String),
      ∀ t ∈ allTickets (createTicket b f cs id now),
        t ∈ allTickets b ∨ (t.createdAt = now ∧ t.updatedAt = now)) ∧
    (∀ (b : Board) (editing : Ticket) (f : TicketFields) (now : String),
      ∀ t ∈ allTickets (updateTicket b editing f now),
        t ∈ allTickets b ∨
          (t.updatedAt = now ∧ t.createdAt = editing.createdAt ∧ t.id = editing.id)) ∧
    (∀ (b : Board) (e : DragEndEvent),
      ∀ t ∈ allTickets (handleDragEnd b e),
        ∃ u ∈ allTickets b, u.id = t.id ∧ u.createdAt = t.createdAt ∧
          u.updatedAt = t.updatedAt) := by
  have happend : ∀ (b : Board) (st : String) (newT t : Ticket),
      t ∈ allTickets (setCol b st (((getCol b st).getD []) ++ [newT])) →
      t ∈ allTickets b ∨ t = newT := by
    intro b st newT t h
    cases hcol : getCol b st with
    | none =>
      rw [hcol, Option.getD_none] at h
      rw [setCol_eq_of_getCol_none hcol] at h
      exact Or.inl h
    | some l =>
      rw [hcol, Option.getD_some] at h
      rcases mem_allTickets_setCol h with h | h
      · rcases List.mem_append.mp h with h | h
        · exact Or.inl (mem_allTickets_of_getCol hcol h)
        · simp only [List.mem_singleton] at h
          exact Or.inr h
      · exact Or.inl h
  refine ⟨?_, ?_, ?_⟩
  · intro b f cs id now t ht
    unfold createTicket at ht
    cases hval : fieldsInvalid f
    · rw [hval] at ht
      simp only [Bool.false_eq_true, if_false] at ht
      rcases happend _ _ _ _ ht with h | h
      · exact Or.inl h
      · subst h
        exact Or.inr ⟨rfl, rfl⟩
    · rw [hval] at ht
      simp only [if_true] at ht
      exact Or.inl ht
  · intro b editing f now t ht
    unfold updateTicket at ht
    cases hval : fieldsInvalid f
    · rw [hval] at ht
      simp only [Bool.false_eq_true, if_false] at ht
      cases hcol : getCol b editing.status with
      | none =>
        rw [hcol] at ht
        exact Or.inl ht
      | some srcList =>
        rw [hcol] at ht
        rcases happend _ _ _ _ ht with h | h
        · rcases mem_allTickets_setCol h with h | h
          · exact Or.inl (mem_allTickets_of_getCol hcol (List.mem_of_mem_filter h))
          · exact Or.inl h
        · subst h
          exact Or.inr ⟨rfl, rfl, rfl⟩
    · rw [hval] at ht
      simp only [if_true] at ht
      exact Or.inl ht
  · intro b e
    obtain ⟨activeId, overId, sourceStatus⟩ := e
    unfold handleDragEnd
    cases overId with
    | none => exact fun t ht => ⟨t, ht, rfl, rfl, rfl⟩
    | some o =>
      cases sourceStatus with
      | none => exact fun t ht => ⟨t, ht, rfl, rfl, rfl⟩
      | some src =>
        cases hdst : resolveDestination b o with
        | none =>
          simp only [hdst]
          exact fun t ht => ⟨t, ht, rfl, rfl, rfl⟩
        | some dst =>
          simp only [hdst]
          by_cases hsd : src = dst
          · rw [if_pos hsd]
            cases hfind : ((getCol b src).getD []).findIdx? (fun u => u.id == activeId) with
            | none =>
              simp only [hfind]
              exact fun t ht => ⟨t, ht, rfl, rfl, rfl⟩
            | some oldIndex =>
              simp only [hfind]
              cases hcol : getCol b src with
              | none => rw [hcol] at hfind; simp at hfind
              | some l =>
                simp only [hcol, Option.getD_some]
                intro t ht
                rcases mem_allTickets_setCol ht with h | h
                · exact ⟨t, mem_allTickets_of_getCol hcol
                    ((arrayMove_perm l oldIndex _).subset h), rfl, rfl, rfl⟩
                · exact ⟨t, h, rfl, rfl, rfl⟩
          · rw [if_neg hsd]
            cases hfind : ((getCol b src).getD []).findIdx? (fun u => u.id == activeId) with
            | none =>
              simp only [hfind]
              exact fun t ht => ⟨t, ht, rfl, rfl, rfl⟩
            | some movingIndex =>
              simp only [hfind]
              cases hget : ((getCol b src).getD [])[movingIndex]? with
              | none =>
                simp only [hget]
                exact fun t ht => ⟨t, ht, rfl, rfl, rfl⟩
              | some moving =>
                simp only [hget]
                cases hcol : getCol b src with
                | none => rw [hcol] at hget; simp at hget
                | some srcList =>
                  rw [hcol, Option.getD_some] at hget
                  simp only [hcol, Option.getD_some]
                  intro t ht
                  rcases mem_allTickets_setCol ht with h | h
                  · rcases List.mem_append.mp h with h | h
                    · obtain ⟨dl, hdl⟩ := getCol_of_mem_colKeys (b := b)
                        (resolveDestination_mem_colKeys hdst)
                      rw [hdl, Option.getD_some] at h
                      exact ⟨t, mem_allTickets_of_getCol hdl h, rfl, rfl, rfl⟩
                    · simp only [List.mem_singleton] at h
                      subst h
                      exact ⟨moving,
                        mem_allTickets_of_getCol hcol (List.getElem?_mem hget),
                        rfl, rfl, rfl⟩
                  · rcases mem_allTickets_setCol h with h | h
                    · exact ⟨t, mem_allTickets_of_getCol hcol
                        ((List.eraseIdx_sublist srcList movingIndex).subset h),
                        rfl, rfl, rfl⟩
                    · exact ⟨t, h, rfl, rfl, rfl⟩

/-- Witness for C5: on a concrete board, the ticket moved by a
cross-column drag keeps the createdAt and updatedAt of its pre-drag
incarnation. -/
theorem claim_C5_timestamps_witness :
    (⟨"T1", "t", "", "X", 1, "Low", "Done", "2024-01-01", "2024-01-02"⟩ : Ticket) ∈
      allTickets (handleDragEnd
        ⟨[⟨"T1", "t", "", "X", 1, "Low", "To Do", "2024-01-01", "2024-01-02"⟩], [], []⟩
        ⟨"T1", some "Done", some "To Do"⟩) ∧
    ∃ u ∈ allTickets
        ⟨[⟨"T1", "t", "", "X", 1, "Low", "To Do", "2024-01-01", "2024-01-02"⟩], [], []⟩,
      u.id = "T1" ∧ u.createdAt = "2024-01-01" ∧ u.updatedAt = "2024-01-02" := by
  refine ⟨by decide, ?_⟩
  have h := claim_C5_timestamps.2.2
    ⟨[⟨"T1", "t", "", "X", 1, "Low", "To Do", "2024-01-01", "2024-01-02"⟩], [], []⟩
    ⟨"T1", some "Done", some "To Do"⟩
    ⟨"T1", "t", "", "X", 1, "Low", "Done", "2024-01-01", "2024-01-02"⟩ (by decide)
  exact h

/-- C5 counterexample: a cross-column drag rewrites the ticket's `status`
but leaves `updatedAt` at its pre-drag value — the mutation does not stamp
the time it happened. -/
theorem claim_C5_counterexample :
    getCol (handleDragEnd
      ⟨[⟨"T1", "t", "", "X", 1, "Low", "To Do", "2024-01-01", "2024-01-02"⟩], [], []⟩
      ⟨"T1", some "Done", some "To Do"⟩) "Done" =
      some [⟨"T1", "t", "", "X", 1, "Low", "Done", "2024-01-01", "2024-01-02"⟩] ∧
    (⟨"T1", "t", "", "X", 1, "Low", "Done", "2024-01-01", "2024-01-02"⟩ : Ticket).updatedAt =
      "2024-01-02" ∧
    ("2024-01-02" : String) ≠ "2024-01-03" := by
  decide

/-- C9 (amended): search trims and lowercases the query; a query that
processes to the empty string returns no results; otherwise the result is
exactly the flattened board (column-then-insertion order) filtered by the
matcher — case-insensitive containment in title, description or assignee,
but verbatim, case-sensitive containment in the id — capped at 10.  The
claim's case-insensitive matching of the id (and its ignoring of the trim)
is refuted by the counterexample. -/
theorem claim_C9_search (b : Board) (query : String) :
    (jsToLower (jsTrim query) = "" → filteredTickets b query = []) ∧
    (jsToLower (jsTrim query) ≠ "" →
      filteredTickets b query =
        ((allTickets b).filter
          (fun t => specMatches t (jsToLower (jsTrim query)))).take 10) ∧
    (filteredTickets b query).length ≤ 10 := by
  have h1 : jsToLower (jsTrim query) = "" → filteredTickets b query = [] := by
    intro h
    unfold filteredTickets
    rw [if_pos h]
  have h2 : jsToLower (jsTrim query) ≠ "" →
      filteredTickets b query =
        ((allTickets b).filter
          (fun t => specMatches t (jsToLower (jsTrim query)))).take 10 := by
    intro h
    unfold filteredTickets
    rw [if_neg h]
    rfl
  refine ⟨h1, h2, ?_⟩
  by_cases hq : jsToLower (jsTrim query) = ""
  · rw [h1 hq]
    simp
  · rw [h2 hq]
    exact List.length_take_le 10 _

/-- Witness for C9: Scenario 6 — with one ticket assigned to
`"Alice Smith"`, searching `"alice"` returns exactly that ticket. -/
theorem claim_C9_search_witness :
    jsToLower (jsTrim "alice") ≠ "" ∧
    filteredTickets ⟨[⟨"1", "Task", "", "Alice Smith", 1, "Low", "To Do", "c", "u"⟩], [], []⟩
      "alice" = [⟨"1", "Task", "", "Alice Smith", 1, "Low", "To Do", "c", "u"⟩] := by
  refine ⟨by decide, ?_⟩
  have h := (claim_C9_search
    ⟨[⟨"1", "Task", "", "Alice Smith", 1, "Low", "To Do", "c", "u"⟩], [], []⟩ "alice").2.1
    (by decide)
  rw [h]
  decide

/-- C9 counterexample: a ticket whose id is `"X1"` contains the query
`"x1"` as a case-insensitive substring, yet the search — which matches ids
verbatim against the lowercased query — returns nothing. -/
theorem claim_C9_counterexample :
    strIncludes (jsToLower (⟨"X1", "t", "", "Bob", 1, "Low", "To Do", "c", "u"⟩ : Ticket).id)
      "x1" = true ∧
    filteredTickets ⟨[⟨"X1", "t", "", "Bob", 1, "Low", "To Do", "c", "u"⟩], [], []⟩ "x1" =
      [] := by
  decide

/-- Witness for C10: deleting id `"7"` from the unknown column
`"Backlog"` throws a `TypeError` even on the empty board. -/
theorem claim_C10_delete_typeError_witness :
    ("7" : String) ≠ "" ∧ ("Backlog" : String) ∉ colKeys ∧
    handleDeleteTicket initialColumns "7" "Backlog" = Except.error JsError.typeError :=
  ⟨by decide, by decide,
   (claim_C10_delete_typeError initialColumns "7" "Backlog").1 (by decide) (by decide)
     (by decide)⟩

end Kanban
